import Mathlib

/-!
Verification development for the resume-matcher pipeline (src/app.py).

The Python source is shallowly embedded below: `extract_text`, the
per-document extraction loop, the TF-IDF vectorization and cosine scoring
(modelled from the spec, since the vectorizer library is outside the
repository), the stable descending sort on raw scores, and rank assignment.
-/

namespace ResumeMatcher

/-- Outcome of calling an underlying parser: either a parsed value or a
raised exception carrying a message. -/
inductive Parse (α : Type) where
  | ok (val : α)
  | error (msg : String)
deriving DecidableEq

/-- An uploaded file: its name plus the behaviour of the two underlying
parsers on its bytes.  `pdfParse` is what `pdfplumber.open` would yield
(a list of pages, each optionally carrying extractable text, or a raised
error); `docxParse` is what `docx.Document` would yield (a list of
paragraph texts, or a raised error). -/
structure UFile where
  name : String
  pdfParse : Parse (List (Option String))
  docxParse : Parse (List String)
deriving DecidableEq

/-- Python's `s.endswith(suffix)`. -/
def endsWithS (s suffix : String) : Bool :=
  decide (s.data.reverse.take suffix.data.length = suffix.data.reverse)

/-- Drop leading whitespace characters from a character list. -/
def trimL : List Char → List Char
  | [] => []
  | c :: cs => if c.isWhitespace then trimL cs else c :: cs

/-- Python's `s.strip()`: remove leading and trailing whitespace. -/
def trimS (s : String) : String :=
  ⟨(trimL (trimL s.data).reverse).reverse⟩

/-- Python's `" ".join(xs)`. -/
def joinSpace : List String → String
  | [] => ""
  | [x] => x
  | x :: y :: xs => x ++ " " ++ joinSpace (y :: xs)

/-- `extract_text` from src/app.py (lines 15-28).  Returns the extracted
string together with the list of `st.error` warnings emitted while
processing this file (one warning when the underlying parse raises). -/
def extract_text (f : UFile) : String × List String :=
  if endsWithS f.name ".pdf" then
    match f.pdfParse with
    | .ok pages => (trimS (joinSpace (pages.map (fun p => p.getD ""))), [])
    | .error e => ("", ["Error processing " ++ f.name ++ ": " ++ e])
  else if endsWithS f.name ".docx" then
    match f.docxParse with
    | .ok paras => (trimS (joinSpace paras), [])
    | .error e => ("", ["Error processing " ++ f.name ++ ": " ++ e])
  else ("", [])

/-- State accumulated by the per-document loop of src/app.py (lines 70-78):
`valid_resumes`, `resume_texts`, and the warnings shown so far. -/
structure BatchExtract where
  valid_resumes : List UFile
  resume_texts : List String
  warnings : List String
deriving DecidableEq

/-- The extraction loop of src/app.py (lines 73-78): each resume is
extracted in turn; files whose extracted text is non-empty (Python
truthiness) are appended to `valid_resumes`/`resume_texts`; warnings
accumulate. -/
def extractBatch : List UFile → BatchExtract
  | [] => ⟨[], [], []⟩
  | r :: rs =>
    let t := extract_text r
    let rest := extractBatch rs
    { valid_resumes := (if t.1 = "" then [] else [r]) ++ rest.valid_resumes
      resume_texts := (if t.1 = "" then [] else [t.1]) ++ rest.resume_texts
      warnings := t.2 ++ rest.warnings }

/-! ### Vectorizer and scorer

Modelled from the spec: the TF-IDF vectorizer and cosine-similarity scorer
live in an external library (`sklearn`), not in this repository, so they
are embedded following the spec's description (§4.2, §4.3): vocabulary
built from all terms of query plus candidates with English stopwords
removed, dimensions assigned by a stable sort of the vocabulary, weighting
tf × idf with the document collection local to the batch, rows
L2-normalized, cosine similarity with the zero-vector edge case scoring 0.
-/

/-- Accumulate maximal runs of alphanumeric characters (current run is
carried reversed). -/
def tokensAux : List Char → List Char → List (List Char)
  | [], cur => if cur = [] then [] else [cur.reverse]
  | c :: cs, cur =>
    if c.isAlphanum then tokensAux cs (c :: cur)
    else if cur = [] then tokensAux cs [] else cur.reverse :: tokensAux cs []

/-- Modelled from the spec: tokenization of a text into terms
(lowercased alphanumeric runs of length at least 2). -/
def tokenize (s : String) : List String :=
  ((tokensAux (s.data.map Char.toLower) []).filter (fun t => 2 ≤ t.length)).map
    (fun cs => ⟨cs⟩)

/-- Lexicographic comparison of character lists by code point. -/
def lexLe : List Char → List Char → Bool
  | [], _ => true
  | _ :: _, [] => false
  | a :: as, b :: bs => if a = b then lexLe as bs else decide (a < b)

/-- Stable term order used for dimension assignment. -/
def termLe (s t : String) : Prop := lexLe s.data t.data = true

instance : DecidableRel termLe := fun s t => inferInstanceAs (Decidable (_ = true))

/-- Modelled from the spec: the vocabulary is the set of distinct terms of
all documents, with stopwords removed, sorted in a stable term order; the
position of a term in this list is its dimension index. -/
def buildVocab (stop : List String) (docs : List String) : List String :=
  List.insertionSort termLe
    (((docs.map tokenize).flatten.filter (fun t => !(stop.contains t))).dedup)

/-- Term frequency of `t` in `doc`. -/
def tf (t : String) (doc : String) : ℕ := (tokenize doc).count t

/-- Document frequency of `t` in the collection `docs`. -/
def df (t : String) (docs : List String) : ℕ :=
  (docs.filter (fun d => (tokenize d).contains t)).length

/-- Modelled from the spec: smoothed inverse document frequency, local to
the batch collection `docs`. -/
noncomputable def idf (t : String) (docs : List String) : ℝ :=
  Real.log ((1 + (docs.length : ℝ)) / (1 + (df t docs : ℝ))) + 1

/-- Dot product of two rows (truncating to the shorter). -/
def dotP (u v : List ℝ) : ℝ := (List.zipWith (· * ·) u v).sum

/-- Euclidean norm of a row. -/
noncomputable def l2norm (v : List ℝ) : ℝ := Real.sqrt (dotP v v)

/-- L2 normalization of a row; a zero row is left unchanged. -/
noncomputable def normalizeRow (v : List ℝ) : List ℝ :=
  if l2norm v = 0 then v else v.map (fun x => x / l2norm v)

/-- Modelled from the spec: the raw (unnormalized) TF-IDF row of `doc`
within the batch collection `docs`, one entry per vocabulary term. -/
noncomputable def tfidfRaw (stop : List String) (docs : List String) (doc : String) :
    List ℝ :=
  (buildVocab stop docs).map (fun t => (tf t doc : ℝ) * idf t docs)

/-- Modelled from the spec: the fitted TF-IDF matrix, one L2-normalized row
per document of the batch collection, in collection order. -/
noncomputable def tfidfMatrix (stop : List String) (docs : List String) :
    List (List ℝ) :=
  docs.map (fun d => normalizeRow (tfidfRaw stop docs d))

/-- Modelled from the spec: cosine similarity with the zero-vector edge
case defined as 0 instead of an error. -/
noncomputable def cosine_similarity (u v : List ℝ) : ℝ :=
  if l2norm u = 0 ∨ l2norm v = 0 then 0 else dotP u v / (l2norm u * l2norm v)

/-- Line 88 of src/app.py: similarity of row 0 (the query) against every
following row, flattened to a list. -/
noncomputable def similarityScores : List (List ℝ) → List ℝ
  | [] => []
  | q :: rest => rest.map (fun v => cosine_similarity q v)

/-- The process-lifetime vectorizer instance returned by `get_vectorizer`
(lines 10-12 of src/app.py): fixed construction parameters (the stopword
list) plus the fitted vocabulary state, overwritten by every fit. -/
structure Vectorizer where
  stop_words : List String
  vocabulary_ : List String

/-- Modelled from the spec: `fit_transform` refits the vectorizer from
scratch on the given collection and returns the matrix; fitting a
collection whose vocabulary is empty after stopword removal raises. -/
noncomputable def Vectorizer.fit_transform (v : Vectorizer) (docs : List String) :
    Vectorizer × Parse (List (List ℝ)) :=
  if buildVocab v.stop_words docs = [] then
    (v, .error "empty vocabulary; perhaps the documents only contain stop words")
  else
    ({ v with vocabulary_ := buildVocab v.stop_words docs },
      .ok (tfidfMatrix v.stop_words docs))

/-! ### Results assembly, sorting and ranking -/

/-- One entry of the `results` list built in lines 94-100 of src/app.py,
generic in the score type (the pipeline uses `ℝ`). -/
structure ResultEntry (α : Type) where
  document : String
  matchScore : String
  rawScore : α
deriving DecidableEq

/-- Lines 94-100 of src/app.py: zip the valid resume names with the
similarity scores; `fmt` stands for the `"{:.2f}"` float formatter, so
`Match Score` is `fmt (score * 100) ++ "%"` and `Raw Score` is the raw
float. -/
def mkResults (fmt : ℝ → String) (names : List String) (scores : List ℝ) :
    List (ResultEntry ℝ) :=
  (names.zip scores).map (fun p => ⟨p.1, fmt (p.2 * 100) ++ "%", p.2⟩)

/-- The comparator of line 103 of src/app.py: `key=Raw Score`,
`reverse=True`. -/
def scoreDesc {α : Type} [LinearOrder α] : ResultEntry α → ResultEntry α → Prop :=
  fun a b => b.rawScore ≤ a.rawScore

instance {α : Type} [LinearOrder α] : DecidableRel (@scoreDesc α _) :=
  fun a b => inferInstanceAs (Decidable (_ ≤ _))

instance {α : Type} [LinearOrder α] : IsTotal (ResultEntry α) scoreDesc :=
  ⟨fun a b => le_total b.rawScore a.rawScore⟩

instance {α : Type} [LinearOrder α] : IsTrans (ResultEntry α) scoreDesc :=
  ⟨fun _ _ _ h1 h2 => le_trans h2 h1⟩

/-- Line 103 of src/app.py: `sorted(results, key=Raw Score, reverse=True)`,
a stable sort in descending raw-score order. -/
def sortResults {α : Type} [LinearOrder α] (rs : List (ResultEntry α)) :
    List (ResultEntry α) :=
  List.insertionSort scoreDesc rs

/-- Lines 114 and 129 of src/app.py: rank positions are assigned by
`enumerate(sorted_results, 1)`. -/
def rankResults {α : Type} [LinearOrder α] (rs : List (ResultEntry α)) :
    List (ℕ × ResultEntry α) :=
  (sortResults rs).enum.map (fun p => (p.1 + 1, p.2))

/-! ### The whole matching block -/

/-- Caller-visible outcome of the matching block: either the pipeline was
stopped by `st.stop()` after a batch-level error, or it completed with the
success-message count and the ranked results. Both carry the per-document
warnings emitted so far. -/
inductive PipelineOutput where
  | stopped (warnings : List String) (batchError : String)
  | done (warnings : List String) (processedCount : ℕ)
      (ranked : List (ℕ × ResultEntry ℝ))

/-- The per-document warnings of an outcome. -/
def warningsOf : PipelineOutput → List String
  | .stopped w _ => w
  | .done w _ _ => w

/-- The ranked list of an outcome (empty when the pipeline stopped). -/
def rankedOf : PipelineOutput → List (ℕ × ResultEntry ℝ)
  | .stopped _ _ => []
  | .done _ _ r => r

/-- The matching block of src/app.py (lines 63-129): extract all resumes,
stop when no text survived, fit-transform `[job_description] + resume_texts`
with the cached vectorizer, stop on a vectorization error, otherwise score,
assemble, sort and rank.  Returns the updated vectorizer instance together
with the caller-visible outcome. -/
noncomputable def runMatching (fmt : ℝ → String) (v : Vectorizer)
    (job_description : String) (resumes : List UFile) :
    Vectorizer × PipelineOutput :=
  let b := extractBatch resumes
  if b.resume_texts = [] then
    (v, .stopped b.warnings "No valid text extracted from uploaded resumes!")
  else
    match Vectorizer.fit_transform v (job_description :: b.resume_texts) with
    | (v', Parse.error e) =>
      (v', .stopped b.warnings ("Error in document processing: " ++ e))
    | (v', Parse.ok m) =>
      let results :=
        mkResults fmt (b.valid_resumes.map (fun r => r.name)) (similarityScores m)
      let ranked := rankResults results
      (v', .done b.warnings ranked.length ranked)

/-! ### Projections, document mentions, claim-side definitions, fixtures -/

/-- The sort-relevant data of a result entry: its document name and raw
score (everything except the rendered string). -/
def displayProj (e : ResultEntry ℝ) : String × ℝ := (e.document, e.rawScore)

/-- Descending order on (name, raw score) pairs by raw score. -/
def pairDesc : String × ℝ → String × ℝ → Prop := fun p q => q.2 ≤ p.2

noncomputable instance : DecidableRel pairDesc := fun _ _ => Real.decidableLE _ _

/-- `isPfx n h` holds when the character list `n` is an initial segment of
`h`. -/
def isPfx : List Char → List Char → Bool
  | [], _ => true
  | _ :: _, [] => false
  | n :: ns, h :: hs => n == h && isPfx ns hs

/-- `containsSeg n h` holds when the character list `n` occurs contiguously
inside `h`. -/
def containsSeg (n : List Char) : List Char → Bool
  | [] => isPfx n []
  | c :: cs => isPfx n (c :: cs) || containsSeg n cs

/-- A warning message `w` mentions (identifies) a document name `name` when
the name occurs verbatim inside the message. -/
def mentionsB (w name : String) : Bool := containsSeg name.data w.data

/-- The successfully extracted candidate texts, in original upload order:
one text per document whose extraction returned a non-empty string. -/
def validTexts (rs : List UFile) : List String :=
  rs.filterMap (fun f =>
    if (extract_text f).1 = "" then none else some (extract_text f).1)

/-- The documents excluded from vectorization: those whose extraction
returned the empty string (failed, unsupported, or empty). -/
def excludedFiles (rs : List UFile) : List UFile :=
  rs.filter (fun f => decide ((extract_text f).1 = ""))

/-- The spec's reporting requirement: every excluded document is accounted
for, by name, in some warning visible to the caller. -/
def reportsAllExcluded (out : PipelineOutput) (rs : List UFile) : Prop :=
  ∀ f ∈ rs, (extract_text f).1 = "" →
    ∃ w ∈ warningsOf out, mentionsB w f.name = true

/-- The claim of C1 as stated, at a given input: the ranked/excluded counts
account for the whole batch, and every excluded document is identified in
some warning reported to the caller. -/
def claimC1At (fmt : ℝ → String) (v : Vectorizer) (q : String)
    (rs : List UFile) : Prop :=
  (rankedOf (runMatching fmt v q rs).2).length + (excludedFiles rs).length
      = rs.length ∧
  reportsAllExcluded (runMatching fmt v q rs).2 rs

/-- The claim of C4 as stated, at a given input: if every document extracts
empty, the pipeline halts without fitting (vectorizer unchanged), returns
zero ranked results, and reports the full failure list. -/
def claimC4At (fmt : ℝ → String) (v : Vectorizer) (q : String)
    (rs : List UFile) : Prop :=
  (∀ f ∈ rs, (extract_text f).1 = "") →
    ((runMatching fmt v q rs).1 = v ∧
     rankedOf (runMatching fmt v q rs).2 = [] ∧
     reportsAllExcluded (runMatching fmt v q rs).2 rs)

/-- A trivial stand-in for the `"{:.2f}"` float formatter. -/
def fmt0 : ℝ → String := fun _ => ""

/-- A fresh cached vectorizer instance with no stopwords configured. -/
def v0 : Vectorizer := ⟨[], []⟩

/-- A cached vectorizer instance carrying stale fitted state. -/
def v1 : Vectorizer := ⟨[], ["stale", "vocabulary"]⟩

/-- A PDF that parses and carries text. -/
def goodPdf : UFile := ⟨"resume1.pdf", .ok [some "python developer"], .ok []⟩

/-- A PDF whose only page is whitespace: extraction succeeds but is empty. -/
def emptyPdf : UFile := ⟨"blank.pdf", .ok [some "   "], .ok []⟩

/-- A PDF whose parse raises. -/
def badPdf : UFile := ⟨"corrupt.pdf", .error "bad xref table", .ok []⟩

/-- A multi-page PDF with an unextractable page. -/
def scanPdf : UFile := ⟨"scan.pdf", .ok [some " Skills: Python ", none, some "ML"], .ok []⟩

/-- A DOCX whose paragraphs are all whitespace: extraction succeeds but is
empty after trimming. -/
def blankDocx : UFile := ⟨"notes.docx", .error "not a pdf", .ok ["  ", " ", ""]⟩

/-! ### Lemmas about the extraction loop -/

theorem extractBatch_append (xs ys : List UFile) :
    extractBatch (xs ++ ys) =
      ⟨(extractBatch xs).valid_resumes ++ (extractBatch ys).valid_resumes,
        (extractBatch xs).resume_texts ++ (extractBatch ys).resume_texts,
        (extractBatch xs).warnings ++ (extractBatch ys).warnings⟩ := by
  induction xs with
  | nil => simp [extractBatch]
  | cons r rs ih => simp [extractBatch, ih, List.append_assoc]

theorem extractBatch_valid_eq_filter (rs : List UFile) :
    (extractBatch rs).valid_resumes =
      rs.filter (fun f => decide ((extract_text f).1 ≠ "")) := by
  induction rs with
  | nil => simp [extractBatch]
  | cons r rs ih =>
    by_cases h : (extract_text r).1 = "" <;>
      simp [extractBatch, List.filter_cons, h, ih]

theorem extractBatch_texts_eq (rs : List UFile) :
    (extractBatch rs).resume_texts =
      rs.filterMap (fun f =>
        if (extract_text f).1 = "" then none else some (extract_text f).1) := by
  induction rs with
  | nil => simp [extractBatch]
  | cons r rs ih =>
    by_cases h : (extract_text r).1 = "" <;>
      simp [extractBatch, List.filterMap_cons, h, ih]

theorem extractBatch_warnings_eq (rs : List UFile) :
    (extractBatch rs).warnings = (rs.map (fun f => (extract_text f).2)).flatten := by
  induction rs with
  | nil => simp [extractBatch]
  | cons r rs ih => simp [extractBatch, ih]

theorem extractBatch_texts_nil_iff (rs : List UFile) :
    (extractBatch rs).resume_texts = [] ↔ ∀ f ∈ rs, (extract_text f).1 = "" := by
  induction rs with
  | nil => simp [extractBatch]
  | cons r rs ih =>
    by_cases h : (extract_text r).1 = "" <;> simp [extractBatch, h, ih]

theorem extractBatch_texts_length (rs : List UFile) :
    (extractBatch rs).resume_texts.length = (extractBatch rs).valid_resumes.length := by
  induction rs with
  | nil => simp [extractBatch]
  | cons r rs ih =>
    by_cases h : (extract_text r).1 = "" <;> simp [extractBatch, h, ih]

/-! ### Lemmas about the matching block -/

theorem warningsOf_runMatching (fmt : ℝ → String) (v : Vectorizer) (q : String)
    (rs : List UFile) :
    warningsOf (runMatching fmt v q rs).2 = (extractBatch rs).warnings := by
  unfold runMatching
  by_cases h : (extractBatch rs).resume_texts = []
  · simp [h, warningsOf]
  · simp only [h, if_false]
    unfold Vectorizer.fit_transform
    by_cases hv : buildVocab v.stop_words (q :: (extractBatch rs).resume_texts) = [] <;>
      simp [hv, warningsOf]

theorem runMatching_stop_words (fmt : ℝ → String) (v : Vectorizer) (q : String)
    (rs : List UFile) :
    (runMatching fmt v q rs).1.stop_words = v.stop_words := by
  unfold runMatching
  by_cases h : (extractBatch rs).resume_texts = []
  · simp [h]
  · simp only [h, if_false]
    unfold Vectorizer.fit_transform
    by_cases hv : buildVocab v.stop_words (q :: (extractBatch rs).resume_texts) = [] <;>
      simp [hv]

theorem runMatching_snd_eq_of_stop_words (fmt : ℝ → String) (v₁ v₂ : Vectorizer)
    (h : v₁.stop_words = v₂.stop_words) (q : String) (rs : List UFile) :
    (runMatching fmt v₁ q rs).2 = (runMatching fmt v₂ q rs).2 := by
  unfold runMatching
  by_cases he : (extractBatch rs).resume_texts = []
  · simp [he]
  · simp only [he, if_false]
    unfold Vectorizer.fit_transform
    rw [h]
    by_cases hv : buildVocab v₂.stop_words (q :: (extractBatch rs).resume_texts) = [] <;>
      simp [hv]

/-! ### Lemmas about dot products, norms and cosine similarity -/

theorem dotP_self_nonneg (v : List ℝ) : 0 ≤ dotP v v := by
  induction v with
  | nil => simp [dotP]
  | cons a v ih =>
    have : dotP (a :: v) (a :: v) = a * a + dotP v v := by simp [dotP]
    nlinarith [ih]

theorem dotP_nonneg {u v : List ℝ} (hu : ∀ x ∈ u, 0 ≤ x) (hv : ∀ x ∈ v, 0 ≤ x) :
    0 ≤ dotP u v := by
  induction u generalizing v with
  | nil => simp [dotP]
  | cons a u ih =>
    cases v with
    | nil => simp [dotP]
    | cons b v =>
      have h1 : dotP (a :: u) (b :: v) = a * b + dotP u v := by simp [dotP]
      have h2 : 0 ≤ dotP u v :=
        ih (fun x hx => hu x (List.mem_cons_of_mem _ hx))
          (fun x hx => hv x (List.mem_cons_of_mem _ hx))
      have h3 : 0 ≤ a := hu a (List.mem_cons_self _ _)
      have h4 : 0 ≤ b := hv b (List.mem_cons_self _ _)
      nlinarith

theorem dotP_sq_le (u v : List ℝ) : (dotP u v) ^ 2 ≤ dotP u u * dotP v v := by
  induction u generalizing v with
  | nil => simp [dotP]
  | cons a u ih =>
    cases v with
    | nil =>
      have : dotP (a :: u) ([] : List ℝ) = 0 := by simp [dotP]
      rw [this]
      have := dotP_self_nonneg (a :: u)
      have := dotP_self_nonneg ([] : List ℝ)
      nlinarith
    | cons b v =>
      have h1 : dotP (a :: u) (b :: v) = a * b + dotP u v := by simp [dotP]
      have h2 : dotP (a :: u) (a :: u) = a * a + dotP u u := by simp [dotP]
      have h3 : dotP (b :: v) (b :: v) = b * b + dotP v v := by simp [dotP]
      have h4 := ih v
      have h5 := dotP_self_nonneg u
      have h6 := dotP_self_nonneg v
      rw [h1, h2, h3]
      have key : (2 * a * b * dotP u v) ^ 2 ≤
          (a ^ 2 * dotP v v + b ^ 2 * dotP u u) ^ 2 := by
        nlinarith [sq_nonneg (a ^ 2 * dotP v v - b ^ 2 * dotP u u),
          sq_nonneg (a * b), h4, mul_nonneg h5 h6]
      have hx : 0 ≤ a ^ 2 * dotP v v + b ^ 2 * dotP u u := by positivity
      have step : 2 * a * b * dotP u v ≤ a ^ 2 * dotP v v + b ^ 2 * dotP u u := by
        nlinarith [key, hx]
      nlinarith [step, h4]

theorem l2norm_nonneg (v : List ℝ) : 0 ≤ l2norm v := Real.sqrt_nonneg _

theorem dotP_eq_zero_of_zero {v : List ℝ} (h : ∀ x ∈ v, x = 0) : dotP v v = 0 := by
  induction v with
  | nil => simp [dotP]
  | cons a v ih =>
    have ha : a = 0 := h a (List.mem_cons_self _ _)
    have : dotP (a :: v) (a :: v) = a * a + dotP v v := by simp [dotP]
    rw [this, ha, ih (fun x hx => h x (List.mem_cons_of_mem _ hx))]
    ring

theorem l2norm_eq_zero_of_zero {v : List ℝ} (h : ∀ x ∈ v, x = 0) : l2norm v = 0 := by
  rw [l2norm, dotP_eq_zero_of_zero h, Real.sqrt_zero]

theorem dotP_le_l2norm_mul (u v : List ℝ) (h : 0 ≤ dotP u v) :
    dotP u v ≤ l2norm u * l2norm v := by
  have hle := dotP_sq_le u v
  calc dotP u v = Real.sqrt ((dotP u v) ^ 2) := (Real.sqrt_sq h).symm
    _ ≤ Real.sqrt (dotP u u * dotP v v) := Real.sqrt_le_sqrt hle
    _ = l2norm u * l2norm v := by
        rw [l2norm, l2norm, ← Real.sqrt_mul (dotP_self_nonneg u)]

theorem cosine_similarity_mem_unit {u v : List ℝ} (hu : ∀ x ∈ u, 0 ≤ x)
    (hv : ∀ x ∈ v, 0 ≤ x) :
    0 ≤ cosine_similarity u v ∧ cosine_similarity u v ≤ 1 := by
  unfold cosine_similarity
  by_cases hz : l2norm u = 0 ∨ l2norm v = 0
  · simp [hz]
  · push_neg at hz
    simp only [hz.1, hz.2, or_self, if_false]
    have hnu : 0 < l2norm u := lt_of_le_of_ne (l2norm_nonneg u) (Ne.symm hz.1)
    have hnv : 0 < l2norm v := lt_of_le_of_ne (l2norm_nonneg v) (Ne.symm hz.2)
    have hd : 0 ≤ dotP u v := dotP_nonneg hu hv
    constructor
    · exact div_nonneg hd (le_of_lt (mul_pos hnu hnv))
    · rw [div_le_one (mul_pos hnu hnv)]
      exact dotP_le_l2norm_mul u v hd

theorem cosine_similarity_zero_right (u v : List ℝ) (h : l2norm v = 0) :
    cosine_similarity u v = 0 := by
  unfold cosine_similarity
  simp [h]

/-! ### Lemmas about the TF-IDF rows -/

theorem df_le_length (t : String) (docs : List String) : df t docs ≤ docs.length :=
  List.length_filter_le _ _

theorem idf_pos (t : String) (docs : List String) : 0 < idf t docs := by
  unfold idf
  have hdf : (df t docs : ℝ) ≤ (docs.length : ℝ) := by
    exact_mod_cast df_le_length t docs
  have h1 : (0 : ℝ) < 1 + (df t docs : ℝ) := by positivity
  have hlog : 0 ≤ Real.log ((1 + (docs.length : ℝ)) / (1 + (df t docs : ℝ))) := by
    apply Real.log_nonneg
    rw [le_div_iff₀ h1]
    linarith
  linarith

theorem tfidfRaw_nonneg (stop : List String) (docs : List String) (d : String) :
    ∀ x ∈ tfidfRaw stop docs d, 0 ≤ x := by
  intro x hx
  rw [tfidfRaw, List.mem_map] at hx
  obtain ⟨t, _, rfl⟩ := hx
  exact mul_nonneg (Nat.cast_nonneg _) (le_of_lt (idf_pos t docs))

theorem normalizeRow_nonneg {v : List ℝ} (hv : ∀ x ∈ v, 0 ≤ x) :
    ∀ x ∈ normalizeRow v, 0 ≤ x := by
  unfold normalizeRow
  by_cases h : l2norm v = 0
  · simpa [h] using hv
  · simp only [h, if_false]
    intro x hx
    rw [List.mem_map] at hx
    obtain ⟨y, hy, rfl⟩ := hx
    exact div_nonneg (hv y hy) (l2norm_nonneg v)

theorem tfidfRaw_eq_zero {stop : List String} {docs : List String} {d : String}
    (h : ∀ t ∈ buildVocab stop docs, tf t d = 0) :
    ∀ x ∈ tfidfRaw stop docs d, x = 0 := by
  intro x hx
  rw [tfidfRaw, List.mem_map] at hx
  obtain ⟨t, ht, rfl⟩ := hx
  rw [h t ht]
  simp

theorem normalizeRow_zero {v : List ℝ} (h : ∀ x ∈ v, x = 0) :
    normalizeRow v = v := by
  unfold normalizeRow
  simp [l2norm_eq_zero_of_zero h]

theorem tfidfMatrix_row_nonneg (stop : List String) (docs : List String) :
    ∀ row ∈ tfidfMatrix stop docs, ∀ x ∈ row, 0 ≤ x := by
  intro row hrow
  rw [tfidfMatrix, List.mem_map] at hrow
  obtain ⟨d, _, rfl⟩ := hrow
  exact normalizeRow_nonneg (tfidfRaw_nonneg stop docs d)

theorem similarityScores_bounds (stop : List String) (docs : List String) :
    List.Forall (fun s => 0 ≤ s ∧ s ≤ 1) (similarityScores (tfidfMatrix stop docs)) := by
  rw [List.forall_iff_forall_mem]
  intro s hs
  cases docs with
  | nil => simp [tfidfMatrix, similarityScores] at hs
  | cons q rest =>
    have hmat : tfidfMatrix stop (q :: rest) =
        normalizeRow (tfidfRaw stop (q :: rest) q) ::
          rest.map (fun d => normalizeRow (tfidfRaw stop (q :: rest) d)) := by
      simp [tfidfMatrix]
    rw [hmat] at hs
    unfold similarityScores at hs
    rw [List.mem_map] at hs
    obtain ⟨d, hd, rfl⟩ := hs
    rw [List.mem_map] at hd
    obtain ⟨d₀, _, rfl⟩ := hd
    exact cosine_similarity_mem_unit
      (normalizeRow_nonneg (tfidfRaw_nonneg stop (q :: rest) q))
      (normalizeRow_nonneg (tfidfRaw_nonneg stop (q :: rest) d₀))

theorem similarityScores_get? (stop : List String) (q : String) (texts : List String)
    (i : ℕ) :
    (similarityScores (tfidfMatrix stop (q :: texts))).get? i =
      (texts.get? i).map (fun d =>
        cosine_similarity (normalizeRow (tfidfRaw stop (q :: texts) q))
          (normalizeRow (tfidfRaw stop (q :: texts) d))) := by
  have hmat : tfidfMatrix stop (q :: texts) =
      normalizeRow (tfidfRaw stop (q :: texts) q) ::
        texts.map (fun d => normalizeRow (tfidfRaw stop (q :: texts) d)) := by
    simp [tfidfMatrix]
  rw [hmat]
  simp only [similarityScores, List.map_map, List.get?_map]
  rfl

theorem similarityScores_length (stop : List String) (q : String)
    (texts : List String) :
    (similarityScores (tfidfMatrix stop (q :: texts))).length = texts.length := by
  have hmat : tfidfMatrix stop (q :: texts) =
      normalizeRow (tfidfRaw stop (q :: texts) q) ::
        texts.map (fun d => normalizeRow (tfidfRaw stop (q :: texts) d)) := by
    simp [tfidfMatrix]
  rw [hmat]
  unfold similarityScores
  simp

/-! ### Lemmas about sorting and ranking -/

theorem enumFrom_map_fst_add_one {β : Type} :
    ∀ (n : ℕ) (l : List β),
      (List.enumFrom n l).map (fun p => p.1 + 1) = List.range' (n + 1) l.length
  | _, [] => by simp
  | n, a :: l => by
    simp only [List.enumFrom, List.map_cons, List.length_cons, List.range'_succ]
    exact congrArg _ (enumFrom_map_fst_add_one (n + 1) l)

theorem sortResults_length {α : Type} [LinearOrder α] (rs : List (ResultEntry α)) :
    (sortResults rs).length = rs.length :=
  List.length_insertionSort _ rs

theorem rankResults_map_fst {α : Type} [LinearOrder α] (rs : List (ResultEntry α)) :
    (rankResults rs).map Prod.fst = List.range' 1 rs.length := by
  rw [rankResults, List.map_map]
  have : (Prod.fst ∘ fun p : ℕ × ResultEntry α => (p.1 + 1, p.2)) =
      fun p : ℕ × ResultEntry α => p.1 + 1 := rfl
  rw [this, List.enum, enumFrom_map_fst_add_one, sortResults_length]

theorem rankResults_map_snd {α : Type} [LinearOrder α] (rs : List (ResultEntry α)) :
    (rankResults rs).map Prod.snd = sortResults rs := by
  rw [rankResults, List.map_map]
  have : (Prod.snd ∘ fun p : ℕ × ResultEntry α => (p.1 + 1, p.2)) =
      (Prod.snd : ℕ × ResultEntry α → ResultEntry α) := rfl
  rw [this, List.enum_map_snd]

theorem sortResults_sorted {α : Type} [LinearOrder α] (rs : List (ResultEntry α)) :
    (sortResults rs).Pairwise (fun a b => b.rawScore ≤ a.rawScore) :=
  List.sorted_insertionSort scoreDesc rs

theorem sortResults_perm {α : Type} [LinearOrder α] (rs : List (ResultEntry α)) :
    (sortResults rs).Perm rs :=
  List.perm_insertionSort scoreDesc rs

theorem sortResults_stable {α : Type} [LinearOrder α] {rs : List (ResultEntry α)}
    {x y : ResultEntry α} (h : List.Sublist [x, y] rs)
    (hxy : x.rawScore = y.rawScore) :
    List.Sublist [x, y] (sortResults rs) :=
  List.pair_sublist_insertionSort (show y.rawScore ≤ x.rawScore from le_of_eq hxy.symm) h

/-! ### Lemmas for the display/sort separation -/

theorem mkResults_map_displayProj (fmt : ℝ → String) (ns : List String)
    (ss : List ℝ) : (mkResults fmt ns ss).map displayProj = ns.zip ss := by
  rw [mkResults, List.map_map]
  have : (displayProj ∘ fun p : String × ℝ => ResultEntry.mk p.1 (fmt (p.2 * 100) ++ "%") p.2) =
      fun p : String × ℝ => (p.1, p.2) := rfl
  rw [this]
  simp

theorem sortResults_map_displayProj (fmt : ℝ → String) (ns : List String)
    (ss : List ℝ) :
    (sortResults (mkResults fmt ns ss)).map displayProj =
      List.insertionSort pairDesc (ns.zip ss) := by
  have h := List.map_insertionSort (r := scoreDesc) (s := pairDesc) displayProj
    (mkResults fmt ns ss) (fun a _ b _ => Iff.rfl)
  rw [sortResults, h, mkResults_map_displayProj]

theorem enumFrom_map_proj {β γ : Type} (g : β → γ) :
    ∀ (n : ℕ) (l₁ l₂ : List β), l₁.map g = l₂.map g →
      (List.enumFrom n l₁).map (fun p => (p.1 + 1, g p.2)) =
        (List.enumFrom n l₂).map (fun p => (p.1 + 1, g p.2))
  | _, [], [], _ => rfl
  | _, [], _ :: _, h => by simp at h
  | _, _ :: _, [], h => by simp at h
  | n, a :: l₁, b :: l₂, h => by
    simp only [List.map_cons, List.cons.injEq] at h
    simp only [List.enumFrom, List.map_cons, h.1]
    exact congrArg _ (enumFrom_map_proj g (n + 1) l₁ l₂ h.2)

/-- When two result lists agree after projecting away the rendered string,
their ranked outputs also agree after that projection. -/
theorem rankResults_map_proj {la lb : List (ResultEntry ℝ)}
    (h : (sortResults la).map displayProj = (sortResults lb).map displayProj) :
    (rankResults la).map (fun p => (p.1, displayProj p.2)) =
      (rankResults lb).map (fun p => (p.1, displayProj p.2)) := by
  rw [rankResults, rankResults, List.map_map, List.map_map]
  show (List.enumFrom 0 (sortResults la)).map (fun p => (p.1 + 1, displayProj p.2)) =
    (List.enumFrom 0 (sortResults lb)).map (fun p => (p.1 + 1, displayProj p.2))
  exact enumFrom_map_proj displayProj 0 _ _ h

/-! ### A closed form for the matching block -/

theorem runMatching_eq (fmt : ℝ → String) (v : Vectorizer) (q : String)
    (rs : List UFile) :
    runMatching fmt v q rs =
      if (extractBatch rs).resume_texts = [] then
        (v, .stopped (extractBatch rs).warnings
          "No valid text extracted from uploaded resumes!")
      else if buildVocab v.stop_words (q :: (extractBatch rs).resume_texts) = [] then
        (v, .stopped (extractBatch rs).warnings
          ("Error in document processing: " ++
            "empty vocabulary; perhaps the documents only contain stop words"))
      else
        ({ v with vocabulary_ :=
            buildVocab v.stop_words (q :: (extractBatch rs).resume_texts) },
          .done (extractBatch rs).warnings
            (rankResults (mkResults fmt
              ((extractBatch rs).valid_resumes.map (fun r => r.name))
              (similarityScores
                (tfidfMatrix v.stop_words
                  (q :: (extractBatch rs).resume_texts))))).length
            (rankResults (mkResults fmt
              ((extractBatch rs).valid_resumes.map (fun r => r.name))
              (similarityScores
                (tfidfMatrix v.stop_words
                  (q :: (extractBatch rs).resume_texts)))))) := by
  unfold runMatching Vectorizer.fit_transform
  by_cases h : (extractBatch rs).resume_texts = []
  · simp [h]
  · simp only [h, if_false]
    by_cases hv : buildVocab v.stop_words (q :: (extractBatch rs).resume_texts) = [] <;>
      simp [hv]

/-! ### Identifying a document inside a warning message -/

theorem isPfx_self_append (n : List Char) : ∀ t, isPfx n (n ++ t) = true := by
  induction n with
  | nil => intro t; rfl
  | cons c cs ih =>
    intro t
    rw [List.cons_append, isPfx, beq_self_eq_true, Bool.true_and]
    exact ih t

theorem containsSeg_of_isPfx {n : List Char} :
    ∀ {h : List Char}, isPfx n h = true → containsSeg n h = true
  | [], hp => by rw [containsSeg]; exact hp
  | _ :: _, hp => by rw [containsSeg, hp, Bool.true_or]

theorem containsSeg_of_append (n a b : List Char) :
    containsSeg n (a ++ n ++ b) = true := by
  induction a with
  | nil =>
    rw [List.nil_append]
    exact containsSeg_of_isPfx (isPfx_self_append n b)
  | cons c cs ih =>
    have hsplit : (c :: cs) ++ n ++ b = c :: (cs ++ n ++ b) := by simp
    rw [hsplit, containsSeg, ih, Bool.or_true]

theorem mentionsB_append (a name b : String) :
    mentionsB (a ++ name ++ b) name = true := by
  have : (a ++ name ++ b).data = a.data ++ name.data ++ b.data := by
    simp [String.data_append]
  rw [mentionsB, this]
  exact containsSeg_of_append name.data a.data b.data

/-- Every warning emitted by `extract_text` for a file mentions that file's
name. -/
theorem extract_text_warnings_mention (f : UFile) :
    ∀ w ∈ (extract_text f).2, mentionsB w f.name = true := by
  intro w hw
  have key : ∀ e : String, w = "Error processing " ++ f.name ++ ": " ++ e →
      mentionsB w f.name = true := by
    intro e he
    subst he
    rw [show "Error processing " ++ f.name ++ ": " ++ e =
        "Error processing " ++ f.name ++ (": " ++ e) from
      String.append_assoc _ _ _]
    exact mentionsB_append "Error processing " f.name (": " ++ e)
  unfold extract_text at hw
  by_cases hp : endsWithS f.name ".pdf" = true
  · rw [if_pos hp] at hw
    cases hpp : f.pdfParse with
    | ok pages => rw [hpp] at hw; simp at hw
    | error e =>
      rw [hpp] at hw
      simp only [List.mem_singleton] at hw
      exact key e hw
  · rw [if_neg hp] at hw
    by_cases hd : endsWithS f.name ".docx" = true
    · rw [if_pos hd] at hw
      cases hdd : f.docxParse with
      | ok paras => rw [hdd] at hw; simp at hw
      | error e =>
        rw [hdd] at hw
        simp only [List.mem_singleton] at hw
        exact key e hw
    · rw [if_neg hd] at hw
      simp at hw

/-! ### Counting the excluded documents -/

theorem filter_length_partition (rs : List UFile) :
    (rs.filter (fun f => decide ((extract_text f).1 ≠ ""))).length +
      (excludedFiles rs).length = rs.length := by
  induction rs with
  | nil => simp [excludedFiles]
  | cons r rs ih =>
    by_cases h : (extract_text r).1 = "" <;>
      simp [excludedFiles, List.filter_cons, h] at ih ⊢ <;> omega

/-! ### Trimming lemmas -/

theorem trimL_head (l : List Char) :
    ∀ c, (trimL l).head? = some c → c.isWhitespace = false := by
  induction l with
  | nil => intro c h; simp [trimL] at h
  | cons a l ih =>
    intro c h
    rw [trimL] at h
    by_cases ha : a.isWhitespace = true
    · rw [if_pos ha] at h
      exact ih c h
    · rw [if_neg ha] at h
      simp only [List.head?_cons, Option.some.injEq] at h
      subst h
      exact Bool.not_eq_true _ ▸ ha

theorem getLast?_trimL (l : List Char) :
    ∀ c, (trimL l).getLast? = some c → l.getLast? = some c := by
  induction l with
  | nil => intro c h; simp [trimL] at h
  | cons a l ih =>
    intro c h
    rw [trimL] at h
    by_cases ha : a.isWhitespace = true
    · rw [if_pos ha] at h
      have hl := ih c h
      cases l with
      | nil => simp [trimL] at h
      | cons b l' => rw [List.getLast?_cons_cons]; exact hl
    · rw [if_neg ha] at h
      exact h

theorem trimS_data (s : String) :
    (trimS s).data = (trimL ((trimL s.data).reverse)).reverse := rfl

theorem trimS_no_edge_whitespace (s : String) :
    (∀ c, (trimS s).data.head? = some c → c.isWhitespace = false) ∧
    (∀ c, (trimS s).data.getLast? = some c → c.isWhitespace = false) := by
  constructor
  · intro c h
    rw [trimS_data, List.head?_reverse] at h
    have h2 := getLast?_trimL _ c h
    rw [List.getLast?_reverse] at h2
    exact trimL_head _ c h2
  · intro c h
    rw [trimS_data, List.getLast?_reverse] at h
    exact trimL_head _ c h

theorem trimL_eq_nil {l : List Char} (h : ∀ c ∈ l, c.isWhitespace = true) :
    trimL l = [] := by
  induction l with
  | nil => rfl
  | cons a l ih =>
    rw [trimL, if_pos (h a (List.mem_cons_self _ _))]
    exact ih (fun c hc => h c (List.mem_cons_of_mem _ hc))

theorem trimS_eq_empty {s : String} (h : ∀ c ∈ s.data, c.isWhitespace = true) :
    trimS s = "" := by
  have h1 : trimL s.data = [] := trimL_eq_nil h
  show String.mk _ = ""
  rw [h1]
  rfl

/-! ### The claims -/

/-- C2: for every list of (document, score) result entries, the ranked
output's rank positions are exactly 1, …, N in order (each exactly once),
its entry sequence is the sorted sequence, the sorted sequence is pairwise
descending in raw score and a permutation of the input, and entries with
exactly equal scores keep their relative input order (stable sort). -/
theorem claim_C2_ranking (α : Type) [LinearOrder α] (rs : List (ResultEntry α)) :
    ((rankResults rs).map Prod.fst = List.range' 1 rs.length) ∧
    ((rankResults rs).map Prod.snd = sortResults rs) ∧
    ((sortResults rs).Pairwise (fun a b => b.rawScore ≤ a.rawScore)) ∧
    ((sortResults rs).Perm rs) ∧
    (∀ x y, List.Sublist [x, y] rs → x.rawScore = y.rawScore →
      List.Sublist [x, y] (sortResults rs)) :=
  ⟨rankResults_map_fst rs, rankResults_map_snd rs, sortResults_sorted rs,
    sortResults_perm rs, fun _ _ h hxy => sortResults_stable h hxy⟩

/-- Witness for C2 at a concrete input with a tie. -/
theorem claim_C2_ranking_witness :
    List.Sublist [(⟨"A", "90.00%", 9⟩ : ResultEntry ℕ), ⟨"B", "90.00%", 9⟩]
      (sortResults [⟨"A", "90.00%", 9⟩, ⟨"C", "10.00%", 1⟩, ⟨"B", "90.00%", 9⟩]) :=
  (claim_C2_ranking ℕ _).2.2.2.2 _ _ (by decide) rfl

/-- C3: the pipeline is a deterministic function of (query, documents):
two runs from any two cached vectorizer instances with the same
construction parameters give identical outputs, and an immediate second run
reusing the updated instance reproduces the first output. -/
theorem claim_C3_deterministic (fmt : ℝ → String) (va vb : Vectorizer)
    (h : va.stop_words = vb.stop_words) (q : String) (rs : List UFile) :
    (runMatching fmt va q rs).2 = (runMatching fmt vb q rs).2 ∧
    (runMatching fmt (runMatching fmt va q rs).1 q rs).2 =
      (runMatching fmt va q rs).2 :=
  ⟨runMatching_snd_eq_of_stop_words fmt va vb h q rs,
    runMatching_snd_eq_of_stop_words fmt _ va
      (runMatching_stop_words fmt va q rs) q rs⟩

/-- Witness for C3: a stale cached instance gives the same output as a
fresh one. -/
theorem claim_C3_deterministic_witness :
    (runMatching fmt0 v1 "python engineer" [goodPdf, badPdf]).2 =
      (runMatching fmt0 v0 "python engineer" [goodPdf, badPdf]).2 :=
  (claim_C3_deterministic fmt0 v1 v0 rfl "python engineer" [goodPdf, badPdf]).1

/-- C5: a document whose parse raises yields a captured warning that
identifies it, extracts as the empty string (so it is excluded), and the
rest of the batch is processed exactly as it would be without it. -/
theorem claim_C5_per_document_error (pre post : List UFile) (f : UFile) (e : String)
    (h : (endsWithS f.name ".pdf" = true ∧ f.pdfParse = .error e) ∨
         (endsWithS f.name ".pdf" = false ∧ endsWithS f.name ".docx" = true ∧
           f.docxParse = .error e)) :
    extract_text f = ("", ["Error processing " ++ f.name ++ ": " ++ e]) ∧
    extractBatch (pre ++ f :: post) =
      ⟨(extractBatch pre).valid_resumes ++ (extractBatch post).valid_resumes,
        (extractBatch pre).resume_texts ++ (extractBatch post).resume_texts,
        (extractBatch pre).warnings ++
          ("Error processing " ++ f.name ++ ": " ++ e) ::
            (extractBatch post).warnings⟩ ∧
    mentionsB ("Error processing " ++ f.name ++ ": " ++ e) f.name = true := by
  have hext : extract_text f = ("", ["Error processing " ++ f.name ++ ": " ++ e]) := by
    unfold extract_text
    rcases h with ⟨hp, he⟩ | ⟨hp, hd, he⟩
    · rw [if_pos hp, he]
    · rw [if_neg (by simp [hp]), if_pos hd, he]
  refine ⟨hext, ?_, ?_⟩
  · have hcons : extractBatch (f :: post) =
        ⟨(extractBatch post).valid_resumes, (extractBatch post).resume_texts,
          ("Error processing " ++ f.name ++ ": " ++ e) ::
            (extractBatch post).warnings⟩ := by
      simp [extractBatch, hext]
    rw [extractBatch_append pre (f :: post), hcons]
  · exact extract_text_warnings_mention f _ (hext ▸ List.mem_singleton.mpr rfl)

/-- Witness for C5: a corrupt PDF between two good files. -/
theorem claim_C5_witness :
    extract_text badPdf =
      ("", ["Error processing " ++ "corrupt.pdf" ++ ": " ++ "bad xref table"]) :=
  (claim_C5_per_document_error [goodPdf] [scanPdf] badPdf "bad xref table"
    (Or.inl ⟨by decide, rfl⟩)).1

/-- C6: every raw similarity score lies in [0, 1], and a candidate whose
TF-IDF vector is zero (no vocabulary term occurs in it) scores exactly 0
rather than raising an error. -/
theorem claim_C6_score_bounds (stop : List String) (q : String)
    (texts : List String) :
    List.Forall (fun s => 0 ≤ s ∧ s ≤ 1)
      (similarityScores (tfidfMatrix stop (q :: texts))) ∧
    (∀ i d, texts.get? i = some d →
      (∀ t ∈ buildVocab stop (q :: texts), tf t d = 0) →
      (similarityScores (tfidfMatrix stop (q :: texts))).get? i = some 0) := by
  refine ⟨similarityScores_bounds stop (q :: texts), ?_⟩
  intro i d hi hzero
  rw [similarityScores_get?, hi]
  have hz : ∀ x ∈ tfidfRaw stop (q :: texts) d, x = 0 := tfidfRaw_eq_zero hzero
  rw [Option.map_some']
  rw [normalizeRow_zero hz]
  exact congrArg some (cosine_similarity_zero_right _ _ (l2norm_eq_zero_of_zero hz))

/-- Witness for C6: the candidate "x y" tokenizes to nothing, so its vector
is zero and its score is exactly 0. -/
theorem claim_C6_witness :
    (similarityScores (tfidfMatrix ["the"] ("hello world" :: ["hello", "x y"]))).get? 1 =
      some 0 :=
  (claim_C6_score_bounds ["the"] "hello world" ["hello", "x y"]).2 1 "x y" rfl
    (by decide)

/-- C8: PDF extraction takes every page's text (an unextractable page
contributing the empty string), joins the pages with single spaces, trims
the result, emits no warning, and the returned text has no leading or
trailing whitespace. -/
theorem claim_C8_pdf_extraction (f : UFile) (pages : List (Option String))
    (h1 : endsWithS f.name ".pdf" = true) (h2 : f.pdfParse = .ok pages) :
    extract_text f = (trimS (joinSpace (pages.map (fun p => p.getD ""))), []) ∧
    (∀ c, (extract_text f).1.data.head? = some c → c.isWhitespace = false) ∧
    (∀ c, (extract_text f).1.data.getLast? = some c → c.isWhitespace = false) := by
  have hext : extract_text f =
      (trimS (joinSpace (pages.map (fun p => p.getD ""))), []) := by
    unfold extract_text
    rw [if_pos h1, h2]
  refine ⟨hext, ?_, ?_⟩
  · rw [hext]
    exact (trimS_no_edge_whitespace _).1
  · rw [hext]
    exact (trimS_no_edge_whitespace _).2

/-- Witness for C8: a three-page PDF with an unextractable middle page. -/
theorem claim_C8_witness :
    extract_text scanPdf =
      (trimS (joinSpace
        (([some " Skills: Python ", none, some "ML"]).map (fun p => p.getD ""))), []) :=
  (claim_C8_pdf_extraction scanPdf [some " Skills: Python ", none, some "ML"]
    (by decide) rfl).1

/-! ### Additional length and membership lemmas -/

theorem mkResults_length (fmt : ℝ → String) (ns : List String) (ss : List ℝ) :
    (mkResults fmt ns ss).length = min ns.length ss.length := by
  simp [mkResults]

theorem rankResults_length {α : Type} [LinearOrder α] (rs : List (ResultEntry α)) :
    (rankResults rs).length = rs.length := by
  rw [rankResults, List.length_map, List.enum_length, sortResults_length]

theorem buildVocab_no_stopwords (stop : List String) (docs : List String) :
    ∀ t ∈ buildVocab stop docs, ¬ t ∈ stop := by
  intro t ht hmem
  rw [buildVocab, List.mem_insertionSort, List.mem_dedup, List.mem_filter] at ht
  have h2 := ht.2
  simp [hmem] at h2

theorem mkResults_spec (fmt : ℝ → String) (ns : List String) (ss : List ℝ) :
    ∀ e ∈ mkResults fmt ns ss, e.matchScore = fmt (e.rawScore * 100) ++ "%" := by
  intro e he
  rw [mkResults, List.mem_map] at he
  obtain ⟨p, _, rfl⟩ := he
  rfl

theorem mem_rankResults_snd {α : Type} [LinearOrder α] {p : ℕ × ResultEntry α}
    {l : List (ResultEntry α)} (hp : p ∈ rankResults l) : p.2 ∈ l := by
  rw [rankResults] at hp
  rw [List.mem_map] at hp
  obtain ⟨q, hq, rfl⟩ := hp
  have h2 := List.mem_map_of_mem Prod.snd hq
  rw [List.enum_map_snd] at h2
  exact (sortResults_perm l).mem_iff.mp h2

/-- The empty-string results of `extract_text` on a raising parse. -/
theorem extract_text_of_error {f : UFile} {e : String}
    (h : (endsWithS f.name ".pdf" = true ∧ f.pdfParse = .error e) ∨
         (endsWithS f.name ".pdf" = false ∧ endsWithS f.name ".docx" = true ∧
           f.docxParse = .error e)) :
    extract_text f = ("", ["Error processing " ++ f.name ++ ": " ++ e]) := by
  unfold extract_text
  rcases h with ⟨hp, he⟩ | ⟨hp, hd, he⟩
  · rw [if_pos hp, he]
  · rw [if_neg (by simp [hp]), if_pos hd, he]

/-! ### C1 -/

/-- C1 counterexample: a batch of one good PDF and one whitespace-only PDF
completes with one ranked result, but the excluded document is not named in
any warning — it is silently dropped from the caller-visible report. -/
theorem claim_C1_counterexample :
    ¬ claimC1At fmt0 v0 "python developer" [goodPdf, emptyPdf] := by
  intro h
  have hb := h.2 emptyPdf (by decide) (by decide)
  obtain ⟨w, hw, -⟩ := hb
  rw [warningsOf_runMatching] at hw
  have hnil : (extractBatch [goodPdf, emptyPdf]).warnings = [] := by decide
  rw [hnil] at hw
  exact absurd hw (List.not_mem_nil w)

/-- C1 (amended): the count of ranked results plus the count of documents
whose extraction was empty equals the total submitted whenever the pipeline
completes (and in the no-valid-input stop the excluded count is the whole
batch); the warnings shown to the caller are exactly the per-document
parse-error messages, each identifying its document — but documents whose
extraction is merely empty or unsupported appear in no failed list. -/
theorem claim_C1_accounting (fmt : ℝ → String) (v : Vectorizer) (q : String)
    (rs : List UFile) :
    ((extractBatch rs).resume_texts ≠ [] →
      buildVocab v.stop_words (q :: (extractBatch rs).resume_texts) ≠ [] →
      (rankedOf (runMatching fmt v q rs).2).length + (excludedFiles rs).length
        = rs.length) ∧
    ((extractBatch rs).resume_texts = [] →
      rankedOf (runMatching fmt v q rs).2 = [] ∧
        (excludedFiles rs).length = rs.length) ∧
    ((extractBatch rs).warnings = (rs.map (fun f => (extract_text f).2)).flatten) ∧
    (∀ f ∈ rs, ∀ w ∈ (extract_text f).2, mentionsB w f.name = true) := by
  refine ⟨?_, ?_, extractBatch_warnings_eq rs,
    fun f _ => extract_text_warnings_mention f⟩
  · intro h1 h2
    have hlen : (rankedOf (runMatching fmt v q rs).2).length =
        (extractBatch rs).valid_resumes.length := by
      rw [runMatching_eq, if_neg h1, if_neg h2]
      show (rankResults (mkResults fmt _ _)).length = _
      rw [rankResults_length, mkResults_length, List.length_map,
        similarityScores_length, extractBatch_texts_length, min_self]
    rw [hlen, extractBatch_valid_eq_filter]
    exact filter_length_partition rs
  · intro h1
    constructor
    · rw [runMatching_eq, if_pos h1]
      rfl
    · have hall := (extractBatch_texts_nil_iff rs).mp h1
      have : excludedFiles rs = rs := by
        rw [excludedFiles, List.filter_eq_self]
        intro f hf
        exact decide_eq_true (hall f hf)
      rw [this]

/-- Witness for C1 (amended): a batch with one valid, one empty and one
corrupt document has 1 ranked + 2 excluded = 3 submitted. -/
theorem claim_C1_accounting_witness :
    (rankedOf (runMatching fmt0 v0 "python developer"
        [goodPdf, emptyPdf, badPdf]).2).length +
      (excludedFiles [goodPdf, emptyPdf, badPdf]).length = 3 :=
  (claim_C1_accounting fmt0 v0 "python developer" [goodPdf, emptyPdf, badPdf]).1
    (by decide) (by decide)

/-! ### C4 -/

/-- C4 counterexample: a batch consisting of one whitespace-only PDF stops
before vectorization with zero ranked results, but the failure list does
not name the document — the "full failure list" part of the claim fails. -/
theorem claim_C4_counterexample :
    ¬ claimC4At fmt0 v0 "python developer" [emptyPdf] := by
  intro h
  obtain ⟨-, -, hrep⟩ := h (by decide)
  obtain ⟨w, hw, -⟩ := hrep emptyPdf (by decide) (by decide)
  rw [warningsOf_runMatching] at hw
  have hnil : (extractBatch [emptyPdf]).warnings = [] := by decide
  rw [hnil] at hw
  exact absurd hw (List.not_mem_nil w)

/-- C4 (amended): when zero documents survive extraction the pipeline halts
before vectorization — the vectorizer instance is returned unchanged, never
fitted — with zero ranked results and a batch-level error; the failure
warnings reported are exactly the per-document parse-error messages (so
documents that are merely empty or unsupported are not individually
listed). -/
theorem claim_C4_no_valid_input (fmt : ℝ → String) (v : Vectorizer) (q : String)
    (rs : List UFile) (h : ∀ f ∈ rs, (extract_text f).1 = "") :
    runMatching fmt v q rs =
      (v, .stopped (extractBatch rs).warnings
        "No valid text extracted from uploaded resumes!") ∧
    rankedOf (runMatching fmt v q rs).2 = [] ∧
    (extractBatch rs).warnings = (rs.map (fun f => (extract_text f).2)).flatten := by
  have htexts : (extractBatch rs).resume_texts = [] :=
    (extractBatch_texts_nil_iff rs).mpr h
  have heq : runMatching fmt v q rs =
      (v, .stopped (extractBatch rs).warnings
        "No valid text extracted from uploaded resumes!") := by
    rw [runMatching_eq, if_pos htexts]
  refine ⟨heq, ?_, extractBatch_warnings_eq rs⟩
  rw [heq]
  rfl

/-- Witness for C4 (amended): an all-empty-or-corrupt batch stops with the
batch-level error and an unchanged vectorizer. -/
theorem claim_C4_no_valid_input_witness :
    runMatching fmt0 v0 "python developer" [emptyPdf, badPdf] =
      (v0, .stopped (extractBatch [emptyPdf, badPdf]).warnings
        "No valid text extracted from uploaded resumes!") :=
  (claim_C4_no_valid_input fmt0 v0 "python developer" [emptyPdf, badPdf]
    (by decide)).1

/-! ### C7 -/

/-- C7: the corpus fitted is exactly the query followed by the successfully
extracted texts in upload order; the fitted state is overwritten with the
vocabulary of exactly this batch (stopwords removed, independent of any
previous fitted state); the query is row 0 of the matrix; and the completed
output's scores come from this one fitted matrix. -/
theorem claim_C7_fit_once (fmt : ℝ → String) (v : Vectorizer) (q : String)
    (rs : List UFile)
    (h1 : (extractBatch rs).resume_texts ≠ [])
    (h2 : buildVocab v.stop_words (q :: (extractBatch rs).resume_texts) ≠ []) :
    ((extractBatch rs).resume_texts = validTexts rs) ∧
    ((runMatching fmt v q rs).1 =
      ⟨v.stop_words, buildVocab v.stop_words (q :: validTexts rs)⟩) ∧
    ((tfidfMatrix v.stop_words (q :: validTexts rs)).get? 0 =
      some (normalizeRow (tfidfRaw v.stop_words (q :: validTexts rs) q))) ∧
    (∀ t ∈ buildVocab v.stop_words (q :: validTexts rs), ¬ t ∈ v.stop_words) ∧
    ((runMatching fmt v q rs).2 =
      .done (extractBatch rs).warnings
        (rankResults (mkResults fmt
          ((extractBatch rs).valid_resumes.map (fun r => r.name))
          (similarityScores
            (tfidfMatrix v.stop_words (q :: validTexts rs))))).length
        (rankResults (mkResults fmt
          ((extractBatch rs).valid_resumes.map (fun r => r.name))
          (similarityScores
            (tfidfMatrix v.stop_words (q :: validTexts rs)))))) := by
  have h0 : (extractBatch rs).resume_texts = validTexts rs :=
    extractBatch_texts_eq rs
  rw [← h0]
  refine ⟨rfl, ?_, ?_, buildVocab_no_stopwords _ _, ?_⟩
  · rw [runMatching_eq, if_neg h1, if_neg h2]
  · simp [tfidfMatrix]
  · rw [runMatching_eq, if_neg h1, if_neg h2]

/-- Witness for C7: the fitted state after a concrete run is the vocabulary
of exactly this batch's corpus, even from a stale instance. -/
theorem claim_C7_fit_once_witness :
    (runMatching fmt0 v1 "python developer" [goodPdf, emptyPdf]).1 =
      ⟨v1.stop_words, buildVocab v1.stop_words
        ("python developer" :: validTexts [goodPdf, emptyPdf])⟩ :=
  (claim_C7_fit_once fmt0 v1 "python developer" [goodPdf, emptyPdf]
    (by decide) (by decide)).2.1

/-! ### C9 -/

/-- C9: every ranked entry's displayed score string is computed from its
raw float score by the formatter (`fmt (raw * 100) ++ "%"`), and the ranked
order — rank positions, documents and raw scores — is identical under any
two formatters: sorting reads only the raw score, never the rendered
string. -/
theorem claim_C9_display (fmta fmtb : ℝ → String) (v : Vectorizer) (q : String)
    (rs : List UFile) :
    List.Forall (fun p => p.2.matchScore = fmta (p.2.rawScore * 100) ++ "%")
      (rankedOf (runMatching fmta v q rs).2) ∧
    (rankedOf (runMatching fmta v q rs).2).map (fun p => (p.1, displayProj p.2)) =
      (rankedOf (runMatching fmtb v q rs).2).map (fun p => (p.1, displayProj p.2)) := by
  rw [runMatching_eq fmta, runMatching_eq fmtb]
  by_cases h1 : (extractBatch rs).resume_texts = []
  · rw [if_pos h1, if_pos h1]
    exact ⟨trivial, rfl⟩
  · rw [if_neg h1, if_neg h1]
    by_cases h2 : buildVocab v.stop_words (q :: (extractBatch rs).resume_texts) = []
    · rw [if_pos h2, if_pos h2]
      exact ⟨trivial, rfl⟩
    · rw [if_neg h2, if_neg h2]
      constructor
      · rw [List.forall_iff_forall_mem]
        intro p hp
        have hsnd := mem_rankResults_snd hp
        exact mkResults_spec fmta _ _ _ hsnd
      · have hmapeq :
            (sortResults (mkResults fmta
              ((extractBatch rs).valid_resumes.map (fun r => r.name))
              (similarityScores (tfidfMatrix v.stop_words
                (q :: (extractBatch rs).resume_texts))))).map displayProj =
            (sortResults (mkResults fmtb
              ((extractBatch rs).valid_resumes.map (fun r => r.name))
              (similarityScores (tfidfMatrix v.stop_words
                (q :: (extractBatch rs).resume_texts))))).map displayProj := by
          rw [sortResults_map_displayProj, sortResults_map_displayProj]
        exact rankResults_map_proj hmapeq

/-- Witness for C9 at a concrete input: two different formatters leave the
rank/document/raw-score sequence unchanged. -/
theorem claim_C9_display_witness :
    (rankedOf (runMatching fmt0 v0 "python developer" [goodPdf, scanPdf]).2).map
        (fun p => (p.1, displayProj p.2)) =
      (rankedOf (runMatching (fun _ => "0.00") v0 "python developer"
        [goodPdf, scanPdf]).2).map (fun p => (p.1, displayProj p.2)) :=
  (claim_C9_display fmt0 (fun _ => "0.00") v0 "python developer"
    [goodPdf, scanPdf]).2

/-! ### C10 -/

/-- C10: `extract_text` returns a plain string, with a raising parse, an
unsupported extension, and whitespace-only extracted text (whether from a
PDF's pages or a DOCX's paragraphs) all yielding the empty string
(indistinguishable in the returned value); the valid resumes are exactly
the documents with a non-empty returned string; and the ranked output
pairs exactly those documents, each once, with their own scores. -/
theorem claim_C10_plain_string (fmt : ℝ → String) (v : Vectorizer) (q : String)
    (rs : List UFile) :
    (∀ f e, ((endsWithS f.name ".pdf" = true ∧ f.pdfParse = .error e) ∨
        (endsWithS f.name ".pdf" = false ∧ endsWithS f.name ".docx" = true ∧
          f.docxParse = .error e)) → (extract_text f).1 = "") ∧
    (∀ f, endsWithS f.name ".pdf" = false → endsWithS f.name ".docx" = false →
      (extract_text f).1 = "") ∧
    (∀ f pages, endsWithS f.name ".pdf" = true → f.pdfParse = .ok pages →
      (∀ c ∈ (joinSpace (pages.map (fun p => p.getD ""))).data,
        c.isWhitespace = true) →
      (extract_text f).1 = "") ∧
    (∀ f paras, endsWithS f.name ".pdf" = false → endsWithS f.name ".docx" = true →
      f.docxParse = .ok paras →
      (∀ c ∈ (joinSpace paras).data, c.isWhitespace = true) →
      (extract_text f).1 = "") ∧
    ((extractBatch rs).valid_resumes =
      rs.filter (fun f => decide ((extract_text f).1 ≠ ""))) ∧
    (((rankedOf (runMatching fmt v q rs).2).map (fun p => displayProj p.2)).Perm
      (if (extractBatch rs).resume_texts = [] ∨
          buildVocab v.stop_words (q :: (extractBatch rs).resume_texts) = [] then []
        else ((extractBatch rs).valid_resumes.map (fun r => r.name)).zip
          (similarityScores (tfidfMatrix v.stop_words
            (q :: (extractBatch rs).resume_texts))))) := by
  refine ⟨?_, ?_, ?_, ?_, extractBatch_valid_eq_filter rs, ?_⟩
  · intro f e h
    rw [extract_text_of_error h]
  · intro f hp hd
    unfold extract_text
    rw [if_neg (by simp [hp]), if_neg (by simp [hd])]
  · intro f pages hp hok hws
    unfold extract_text
    rw [if_pos hp, hok]
    exact trimS_eq_empty hws
  · intro f paras hp hd hok hws
    unfold extract_text
    rw [if_neg (by simp [hp]), if_pos hd, hok]
    exact trimS_eq_empty hws
  · rw [runMatching_eq]
    by_cases h1 : (extractBatch rs).resume_texts = []
    · rw [if_pos h1, if_pos (Or.inl h1)]
      exact List.Perm.refl _
    · by_cases h2 : buildVocab v.stop_words
          (q :: (extractBatch rs).resume_texts) = []
      · rw [if_neg h1, if_pos h2, if_pos (Or.inr h2)]
        exact List.Perm.refl _
      · rw [if_neg h1, if_neg h2,
          if_neg (by push_neg; exact ⟨h1, h2⟩)]
        show ((rankResults (mkResults fmt _ _)).map
            (fun p => displayProj p.2)).Perm _
        have hcomp : (rankResults (mkResults fmt
            ((extractBatch rs).valid_resumes.map (fun r => r.name))
            (similarityScores (tfidfMatrix v.stop_words
              (q :: (extractBatch rs).resume_texts))))).map
              (fun p => displayProj p.2) =
            (sortResults (mkResults fmt
              ((extractBatch rs).valid_resumes.map (fun r => r.name))
              (similarityScores (tfidfMatrix v.stop_words
                (q :: (extractBatch rs).resume_texts))))).map displayProj := by
          rw [← rankResults_map_snd, List.map_map]
          rfl
        rw [hcomp]
        have hperm := (sortResults_perm (mkResults fmt
          ((extractBatch rs).valid_resumes.map (fun r => r.name))
          (similarityScores (tfidfMatrix v.stop_words
            (q :: (extractBatch rs).resume_texts))))).map displayProj
        rw [mkResults_map_displayProj] at hperm
        exact hperm

/-- Witness for C10: a whitespace-only PDF and a whitespace-only DOCX both
yield the empty string. -/
theorem claim_C10_witness :
    (extract_text emptyPdf).1 = "" ∧ (extract_text blankDocx).1 = "" :=
  ⟨(claim_C10_plain_string fmt0 v0 "python developer" []).2.2.1 emptyPdf
      [some "   "] (by decide) rfl (by decide),
    (claim_C10_plain_string fmt0 v0 "python developer" []).2.2.2.1 blankDocx
      ["  ", " ", ""] (by decide) (by decide) rfl (by decide)⟩

end ResumeMatcher
